import Mathlib

/-!
Verification of the voxarch ingestion / chunking / indexing / retrieval core
(`rag/ingest.py`, `rag/vectorstore.py`, `rag/langchain_retriever.py`) against
its natural-language specification.

The Python code is shallowly embedded: pure helpers become Lean functions,
the `VectorStore` object becomes an explicit record threaded through the
operations, Python exceptions become `Except`, and Python `while` loops that
may diverge are given an explicit fuel parameter (`none` = the loop did not
finish within the fuel).  External collaborators (sentence-transformer /
CLAP embedders, whisper transcription) are parameters of the embedded
functions, exactly as the spec treats them (opaque collaborators).  The
FAISS `IndexFlatL2.search` call is modelled by its documented behaviour:
exhaustive squared-L2 scan, the `min(k, ntotal)` nearest returned in
ascending distance order, and, when `k > ntotal`, the result padded to `k`
entries with label `-1` and a float-max sentinel distance.
-/

namespace Voxarch

/-- Python `x or default` for an optional integer argument: `None` and `0`
are falsy, so both resolve to the default. -/
def pyOrNat (o : Option Nat) (d : Nat) : Nat :=
  match o with
  | none => d
  | some 0 => d
  | some n => n

/-- Python `x or default` for an optional string: `None` and `""` are falsy. -/
def pyOrStr (o : Option String) (d : String) : String :=
  match o with
  | none => d
  | some "" => d
  | some s => s

/-- Character-level worker for Python `str.split()`: `cur` is the word
being accumulated, in reverse. -/
def wordsAux : List Char → List Char → List String
  | [], cur => if cur = [] then [] else [String.mk cur.reverse]
  | ch :: rest, cur =>
    if ch.isWhitespace then
      (if cur = [] then [] else [String.mk cur.reverse]) ++ wordsAux rest []
    else wordsAux rest (ch :: cur)

/-- Python `str.split()` with no argument: split on whitespace runs,
dropping empty pieces. -/
def pySplit (s : String) : List String :=
  wordsAux s.data []

/-- Character-level worker for Python `str.splitlines()`. -/
def linesAux : List Char → List Char → List String
  | [], cur => if cur = [] then [] else [String.mk cur.reverse]
  | ch :: rest, cur =>
    if ch = '\n' then String.mk cur.reverse :: linesAux rest []
    else linesAux rest (ch :: cur)

/-- Python `str.splitlines()` restricted to `\n` separators: each newline
ends a line, a trailing newline yields no extra empty line, and the empty
string has no lines. -/
def pySplitLines (s : String) : List String :=
  linesAux s.data []

/-- Python `str.strip()`: drop leading and trailing whitespace. -/
def pyStrip (s : String) : String :=
  String.mk (((s.data.dropWhile Char.isWhitespace).reverse.dropWhile Char.isWhitespace).reverse)

/-- Join lines with newlines (`"\n".join(buffer)`). -/
def joinN (lines : List String) : String :=
  String.intercalate "\n" lines

/-- Python list indexing `l[i]` with an `int` index: a negative index wraps
once from the end; out of range raises `IndexError` (here `none`). -/
def pyGet {α : Type} (l : List α) (i : Int) : Option α :=
  if 0 ≤ i then l.get? i.toNat
  else if (-i).toNat ≤ l.length then l.get? (l.length - (-i).toNat)
  else none

/-- A metadata record as built by `ingest_books_and_audio` (a Python dict;
absent / `None` fields are `none`, and the post-query `score` key is
`none` until a query attaches it). -/
structure Meta where
  source_type : String
  book_title : Option String
  filename : String
  sectionTitle : Option String
  section_index : Option Nat
  chunk_index : Nat
  text : Option String
  start_time : Option ℚ
  end_time : Option ℚ
  audio_path : Option String
  score : Option Int
deriving DecidableEq, Repr

/-- `meta = self.metadata[idx].copy(); meta["score"] = float(score)`:
the score is written on a fresh copy of the stored record. -/
def setScore (m : Meta) (d : Int) : Meta :=
  { m with score := some d }

/-- The `VectorStore` state that matters to the claims: the FAISS index is
its ordered vector collection, plus the parallel metadata list. -/
structure VectorStore where
  vectors : List (List Int)
  metadata : List Meta
deriving DecidableEq, Repr

/-- Squared Euclidean distance, the metric of `faiss.IndexFlatL2`. -/
def sqL2 (a b : List Int) : Int :=
  ((a.zip b).map (fun p => (p.1 - p.2) * (p.1 - p.2))).sum

/-- The float-max sentinel distance FAISS reports for padding entries when
`k` exceeds the number of indexed vectors. -/
def fltMax : Int := 340282346638528859811704183484516925440

/-- Comparison used to rank scored index entries: ascending distance,
ties by index. -/
def distLe (a b : Int × Int) : Prop :=
  a.1 < b.1 ∨ (a.1 = b.1 ∧ a.2 ≤ b.2)

instance : DecidableRel distLe := fun a b => by
  unfold distLe
  infer_instance

/-- `faiss.IndexFlatL2.search` on one query row: score every stored vector,
return the `k` best `(distance, label)` pairs in ascending order, padding
with `(FLT_MAX, -1)` when `k` exceeds the number of stored vectors. -/
def faissSearch (vecs : List (List Int)) (q : List Int) (k : Nat) : List (Int × Int) :=
  let scored := vecs.enum.map (fun p => (sqL2 q p.2, (p.1 : Int)))
  let sorted := scored.insertionSort distLe
  let top := sorted.take k
  top ++ List.replicate (k - top.length) (fltMax, (-1 : Int))

/-- The result-building loop of `VectorStore.query`:
`for idx, score in zip(I[0], D[0]): meta = self.metadata[idx].copy();
meta["score"] = float(score); results.append(meta)`.  An out-of-range
index raises (propagated by the method's bare `raise`). -/
def lookupLoop (metadata : List Meta) : List (Int × Int) → List Meta → Except String (List Meta)
  | [], acc => .ok acc
  | (d, i) :: rest, acc =>
    match pyGet metadata i with
    | none => .error "IndexError"
    | some m => lookupLoop metadata rest (acc ++ [setScore m d])

/-- `VectorStore.query`, with the post-call store made explicit (the method
never assigns to `self.index` / `self.metadata`, so the returned store is
the input store).  `top_k or self.config.get("search.top_k", 5)` resolves
a falsy `top_k`; the text embedder is an external collaborator parameter. -/
def queryWithState (embed : String → Except String (List Int)) (store : VectorStore)
    (q : String) (topK : Option Nat) (cfgTopK : Nat) :
    Except String (List Meta × VectorStore) :=
  match embed q with
  | .error e => .error e
  | .ok emb =>
    match lookupLoop store.metadata
        (faissSearch store.vectors emb (pyOrNat topK cfgTopK)) [] with
    | .error e => .error e
    | .ok rs => .ok (rs, store)

/-- `VectorStore.query` as the caller sees it: just the result list. -/
def query (embed : String → Except String (List Int)) (store : VectorStore)
    (q : String) (topK : Option Nat) (cfgTopK : Nat) : Except String (List Meta) :=
  (queryWithState embed store q topK cfgTopK).map (fun p => p.1)

/-- `VectorStore.query_audio`: transcribe the audio file, then run the
ordinary text query on the transcript; failures propagate (the method
logs and re-raises). -/
def query_audio (embed : String → Except String (List Int))
    (transcriber : String → Except String String) (store : VectorStore)
    (audioPath : String) (topK : Option Nat) (cfgTopK : Nat) :
    Except String (List Meta) := do
  let t ← transcriber audioPath
  query embed store t topK cfgTopK

/-- A LangChain `Document` as built by the retriever: `page_content` is
`meta.get("text") or ""`, `metadata` is the full record. -/
structure Document where
  page_content : String
  metadata : Meta
deriving DecidableEq, Repr

/-- `VoxarchRetriever._get_relevant_documents`: dispatch on mode, wrap each
result record as a Document, and turn any error into the empty list
(`except Exception: return []`).  `top_k = self.top_k or 5`. -/
def getRelevantDocuments (embed : String → Except String (List Int))
    (transcriber : String → Except String String) (store : VectorStore)
    (mode : String) (selfTopK : Option Nat) (cfgTopK : Nat) (q : String) :
    List Document :=
  let k := pyOrNat selfTopK 5
  match (if mode = "audio"
         then query_audio embed transcriber store q (some k) cfgTopK
         else query embed store q (some k) cfgTopK) with
  | .error _ => []
  | .ok rs => rs.map (fun m => { page_content := pyOrStr m.text "", metadata := m })

/-- The embedding loop of `VectorStore.build`: per chunk, dispatch on the
metadata's `source_type` to the audio or text embedder; a failing chunk is
skipped (`except: continue`), so only its vector is dropped. -/
def buildEmbeds (textEmbed audioEmbed : String → Except String (List Int)) :
    List (String × Meta) → List (List Int)
  | [] => []
  | (c, m) :: rest =>
    match (if m.source_type = "audio_clap" then audioEmbed c else textEmbed c) with
    | .ok e => e :: buildEmbeds textEmbed audioEmbed rest
    | .error _ => buildEmbeds textEmbed audioEmbed rest

/-- `VectorStore.build` after ingestion has produced `(chunks, metadata)`:
embed each chunk (skipping failures), abort if no embedding survived,
otherwise install the vectors and — as written in the source — the *full*
ingested metadata list (`self.metadata = metadata`). -/
def build (textEmbed audioEmbed : String → Except String (List Int))
    (chunks : List String) (metadata : List Meta) : Except String VectorStore :=
  let embs := buildEmbeds textEmbed audioEmbed (chunks.zip metadata)
  if embs = [] then .error "No embeddings generated for the dataset."
  else .ok { vectors := embs, metadata := metadata }

/-- The word-method `while` loop of `chunk_text`, with fuel (`none` = the
loop did not finish).  Python's `i += chunk_size - overlap` with
`overlap ≥ chunk_size` never advances `i` past the guard (for
`overlap = chunk_size` the step is 0 exactly as here; for
`overlap > chunk_size` Python walks `i` negative, also forever), which the
truncated subtraction models as a zero step. -/
def chunkLoopW (words : List String) (cs ov mcw : Nat) : Nat → Nat → Option (List (List String))
  | 0, _ => none
  | fuel + 1, i =>
    if i < words.length then
      (chunkLoopW words cs ov mcw fuel (i + (cs - ov))).map
        (fun rest =>
          if mcw ≤ ((words.drop i).take cs).length
          then (words.drop i).take cs :: rest else rest)
    else some []

/-- The word-method chunker on an already-split word list, run with enough
fuel for any terminating configuration (`stride ≥ 1` needs at most
`length + 1` iterations). -/
def chunkWords (words : List String) (cs ov mcw : Nat) : Option (List (List String)) :=
  chunkLoopW words cs ov mcw (words.length + 1) 0

/-- `chunk_text` with `method="words"` and already-resolved numeric
settings (in the source each of `chunk_size`, `overlap`,
`min_chunk_words` is `arg or config.get(...)`): split into words, slide
the window, keep windows of at least `min_chunk_words` words, join each
kept window with single spaces. -/
def chunk_text (text : String) (cs ov mcw : Nat) : Option (List String) :=
  (chunkWords (pySplit text) cs ov mcw).map (List.map (String.intercalate " "))

/-- Closed form of the word-method window sequence started at index `i`
with stride `s`: the windows `words[i : i + cs]`, `words[i + s : i + s + cs]`,
… that contain at least `mcw` words (total by well-founded recursion on the
remaining length, provided the stride is positive). -/
def windowsFrom (words : List String) (cs s mcw : Nat) (i : Nat) : List (List String) :=
  if _h : 0 < s ∧ i < words.length then
    (if mcw ≤ ((words.drop i).take cs).length then [(words.drop i).take cs] else []) ++
      windowsFrom words cs s mcw (i + s)
  else []
termination_by words.length - i
decreasing_by
  omega

/-- `clean_chunk`: collapse every whitespace run to a single space and
strip the ends — equivalently, rejoin the Python-split words. -/
def clean_chunk (c : String) : String :=
  String.intercalate " " (pySplit c)

/-- The loop of `deduplicate_chunks` with its `seen` set; Python keys the
set on `hash(c)` of the raw chunk string, modelled as the string itself. -/
def dedupLoop : List String → List String → List String
  | [], _ => []
  | c :: cs, seen =>
    if c ∈ seen then dedupLoop cs seen else c :: dedupLoop cs (c :: seen)

/-- `deduplicate_chunks`: keep the first occurrence of each exact chunk
string. -/
def deduplicate_chunks (cs : List String) : List String :=
  dedupLoop cs []

/-- Reference recursion for first-occurrence deduplication: keep the head,
drop its later duplicates, recurse. -/
def keepFirst : List String → List String
  | [] => []
  | c :: cs => c :: keepFirst (cs.filter (fun x => x ≠ c))
termination_by l => l.length
decreasing_by
  simp only [List.length_cons]
  exact Nat.lt_succ_of_le (List.length_filter_le _ _)

/-- The per-line loop of `extract_sections_txt` over `(current_section,
buffer)`: a heading line flushes the buffered section (unless the heading
exclusion drops it) and opens a new one; other lines accumulate.  The
heading matcher abstracts `re.match(regex, line.strip(), IGNORECASE)`
applied to the stripped line. -/
def estLoop (isH : String → Bool) (excl : List String) :
    List String → String → List String → List (String × String)
  | [], cur, buf =>
    if buf ≠ [] ∧ (excl = [] ∨ cur ∉ excl) then [(cur, joinN buf)] else []
  | line :: rest, cur, buf =>
    if isH (pyStrip line) then
      (if buf ≠ [] ∧ (excl = [] ∨ cur ∉ excl) then [(cur, joinN buf)] else []) ++
        estLoop isH excl rest (pyStrip line) []
    else
      estLoop isH excl rest cur (buf ++ [line])

/-- `extract_sections_txt`: split into lines and run the sectioning loop,
starting in the implicit `"Introduction"` section. -/
def extract_sections_txt (text : String) (isH : String → Bool) (excl : List String) :
    List (String × String) :=
  estLoop isH excl (pySplitLines text) "Introduction" []

/-- The default `parsing.section_heading_regex` `"^Chapter|^Section"`
matched case-insensitively at the start of the stripped line. -/
def defaultHeadingMatch (l : String) : Bool :=
  (l.data.map Char.toLower).take 7 == "chapter".data ||
    (l.data.map Char.toLower).take 7 == "section".data

/-- `ingest_books_and_audio` lines 212–213 for a non-EPUB file: if
extraction produced no sections, fall back to the synthetic
`(book_title, text)` section. -/
def sectionsOrSynthetic (text bookTitle : String) (isH : String → Bool)
    (excl : List String) : List (String × String) :=
  let s := extract_sections_txt text isH excl
  if s = [] then [(bookTitle, text)] else s

/-- The per-section loop of `ingest_books_and_audio` (lines 214–233):
`enumerate` the sections, skip a section whose body is empty or has fewer
than `min_section_words` words, chunk the rest (the chunker parameter
abstracts `chunk_text` + optional `deduplicate_chunks`), clean each chunk
and emit its metadata record with the enumeration index as
`section_index`. -/
def processSections (chunker : String → List String) (msw : Nat)
    (bookTitle fn : String) (sections : List (String × String)) : List Meta :=
  sections.enum.flatMap (fun p =>
    if p.2.2 = "" ∨ (pySplit p.2.2).length < msw then []
    else ((chunker p.2.2).enum).map (fun q =>
      { source_type := "book"
        book_title := some bookTitle
        filename := fn
        sectionTitle := some p.2.1
        section_index := some p.1
        chunk_index := q.1
        text := some (clean_chunk q.2)
        start_time := none
        end_time := none
        audio_path := none
        score := none }))

/-- Sample book metadata record used by concrete evaluations. -/
def sampleMeta (j : Nat) : Meta :=
  { source_type := "book"
    book_title := some "b"
    filename := "b.txt"
    sectionTitle := some "Introduction"
    section_index := some 0
    chunk_index := j
    text := some "t"
    start_time := none
    end_time := none
    audio_path := none
    score := none }


/-- Constant text embedder used by concrete evaluations. -/
def embedConst (v : List Int) : String → Except String (List Int) :=
  fun _ => .ok v

/-- Text embedder that fails on one designated chunk and embeds every
other chunk to the vector `[1]`. -/
def embedFailOn (bad : String) : String → Except String (List Int) :=
  fun c => if c = bad then .error "boom" else .ok [1]

/-- Embedder that always fails. -/
def embedFail : String → Except String (List Int) :=
  fun _ => .error "fail"

/-- Transcriber returning a fixed transcript. -/
def transcribeConst (t : String) : String → Except String String :=
  fun _ => .ok t

/-- One-record store used by concrete evaluations. -/
def store1 : VectorStore :=
  { vectors := [[0]], metadata := [sampleMeta 0] }

/-- Two-record store used by concrete evaluations. -/
def store2 : VectorStore :=
  { vectors := [[0], [1]], metadata := [sampleMeta 0, sampleMeta 1] }

/-- Claim C1: refuted on the code.  With two ingested chunks whose second
embedding fails, `build` completes successfully but installs 1 vector
against 2 metadata records: the failed chunk is dropped from the vector
collection only (`self.metadata = metadata` keeps the full ingested list),
so `len(vectors) == len(metadata)` does not hold after the build. -/
theorem build_keeps_failed_chunk_metadata :
    (build (embedFailOn "c2") embedFail ["c1", "c2"] [sampleMeta 0, sampleMeta 1]).map
      (fun s => (s.vectors.length, s.metadata.length)) = .ok (1, 2) ∧ (1 : Nat) ≠ 2 :=
  ⟨rfl, by decide⟩

/-- Claim C2: refuted on the code.  Querying `top_k = 3` against a store
holding 2 records does not return exactly the 2 indexed records: FAISS
pads the missing neighbor with label `-1` and a float-max distance, and
Python's `self.metadata[-1]` wraps around to the *last* stored record, so
the query returns 3 records, the third being a spurious copy of the last
record carrying the sentinel score. -/
theorem query_topk_exceeding_count_pads :
    query (embedConst [0]) store2 "q" (some 3) 5 =
      .ok [setScore (sampleMeta 0) 0, setScore (sampleMeta 1) 1,
           setScore (sampleMeta 1) fltMax] ∧
    store2.metadata.length = 2 ∧
    [setScore (sampleMeta 0) 0, setScore (sampleMeta 1) 1,
     setScore (sampleMeta 1) fltMax].length ≠ 2 :=
  ⟨rfl, rfl, by decide⟩

/-- Claim C3: refuted on the code.  `chunk_text` performs no configuration
check: with `overlap ≥ chunk_size` the loop index never advances, so for
any input that still has words left the word-method loop never finishes,
whatever fuel it is given — an infinite loop instead of a fast
configuration error. -/
theorem chunk_loop_diverges_on_degenerate_overlap (fuel : Nat) (words : List String)
    (cs ov mcw i : Nat) (hov : cs ≤ ov) (hi : i < words.length) :
    chunkLoopW words cs ov mcw fuel i = none := by
  induction fuel with
  | zero => rfl
  | succ n ih =>
    have hz : cs - ov = 0 := Nat.sub_eq_zero_of_le hov
    unfold chunkLoopW
    rw [if_pos hi, hz, Nat.add_zero, ih]
    rfl

/-- Witness for the claim C3 theorem at a concrete degenerate
configuration: two words, `chunk_size = overlap = 1`. -/
theorem chunk_loop_diverges_witness :
    (1 : Nat) ≤ 1 ∧ 0 < (["a", "b"] : List String).length ∧
      chunkLoopW ["a", "b"] 1 1 1 5 0 = none :=
  ⟨le_refl 1, by decide,
    chunk_loop_diverges_on_degenerate_overlap 5 ["a", "b"] 1 1 1 0 (le_refl 1) (by decide)⟩

/-- Claim C7: confirmed.  Whenever transcription of the query audio file
succeeds with transcript `t`, `query_audio` returns exactly what the
text-mode `query` returns on `t` — audio queries always go through
transcription plus the text-query path. -/
theorem query_audio_eq_query_on_transcript
    (embed : String → Except String (List Int))
    (transcriber : String → Except String String) (store : VectorStore)
    (audioPath : String) (topK : Option Nat) (cfgTopK : Nat) (t : String)
    (h : transcriber audioPath = .ok t) :
    query_audio embed transcriber store audioPath topK cfgTopK =
      query embed store t topK cfgTopK := by
  unfold query_audio
  rw [h]
  rfl

/-- Witness for the claim C7 theorem at a concrete store and transcriber. -/
theorem query_audio_eq_query_witness :
    query_audio (embedConst [0]) (transcribeConst "hello") store1 "a.wav" (some 1) 5 =
      query (embedConst [0]) store1 "hello" (some 1) 5 :=
  query_audio_eq_query_on_transcript (embedConst [0]) (transcribeConst "hello")
    store1 "a.wav" (some 1) 5 "hello" rfl


/-- Claim C8: confirmed.  The retriever boundary turns any retrieval error
(in either mode) into the empty evidence list, and on success wraps each
result record as one document pairing the record's text (empty string when
the text field is null) with the full record. -/
theorem retriever_recovers_errors_and_wraps_results
    (embed : String → Except String (List Int))
    (transcriber : String → Except String String) (store : VectorStore)
    (mode : String) (selfTopK : Option Nat) (cfgTopK : Nat) (q : String) :
    (∀ e, (if mode = "audio"
            then query_audio embed transcriber store q (some (pyOrNat selfTopK 5)) cfgTopK
            else query embed store q (some (pyOrNat selfTopK 5)) cfgTopK) = .error e →
        getRelevantDocuments embed transcriber store mode selfTopK cfgTopK q = []) ∧
    (∀ rs, (if mode = "audio"
            then query_audio embed transcriber store q (some (pyOrNat selfTopK 5)) cfgTopK
            else query embed store q (some (pyOrNat selfTopK 5)) cfgTopK) = .ok rs →
        getRelevantDocuments embed transcriber store mode selfTopK cfgTopK q =
          rs.map (fun m => { page_content := pyOrStr m.text "", metadata := m })) := by
  constructor
  · intro e h
    simp [getRelevantDocuments, h]
  · intro rs h
    simp [getRelevantDocuments, h]

/-- Witness for the claim C8 theorem: a failing embedder yields the empty
document list in text mode. -/
theorem retriever_recovers_errors_witness :
    getRelevantDocuments embedFail (transcribeConst "t") store1 "text" none 5 "q" = [] :=
  (retriever_recovers_errors_and_wraps_results embedFail (transcribeConst "t") store1
    "text" none 5 "q").1 "fail" rfl

/-- Auxiliary: `pyGet` only returns elements of the list, at a concrete
position. -/
theorem pyGet_eq_some {α : Type} (l : List α) (i : Int) (a : α)
    (h : pyGet l i = some a) :
    ∃ j, ∃ hj : j < l.length, l.get ⟨j, hj⟩ = a := by
  unfold pyGet at h
  split at h
  · rw [List.get?_eq_some] at h
    exact ⟨i.toNat, h⟩
  · split at h
    · rw [List.get?_eq_some] at h
      exact ⟨l.length - (-i).toNat, h⟩
    · exact absurd h (by simp)

/-- Auxiliary: every record produced by the result loop of `query` that is
not already in the accumulator is a score-bearing copy of a stored
record. -/
theorem lookupLoop_mem (md : List Meta) :
    ∀ (pairs : List (Int × Int)) (acc out : List Meta),
      lookupLoop md pairs acc = .ok out →
      ∀ r ∈ out, r ∈ acc ∨
        ∃ d, ∃ j, ∃ hj : j < md.length, r = setScore (md.get ⟨j, hj⟩) d := by
  intro pairs
  induction pairs with
  | nil =>
    intro acc out h r hr
    obtain rfl : acc = out := by
      simpa [lookupLoop] using h
    exact Or.inl hr
  | cons p rest ih =>
    intro acc out h r hr
    obtain ⟨d, i⟩ := p
    unfold lookupLoop at h
    cases hget : pyGet md i with
    | none => rw [hget] at h; exact absurd h (by simp)
    | some m =>
      rw [hget] at h
      rcases ih (acc ++ [setScore m d]) out h r hr with hacc | hfound
      · rcases List.mem_append.mp hacc with h1 | h2
        · exact Or.inl h1
        · obtain ⟨j, hj, hget2⟩ := pyGet_eq_some md i m hget
          refine Or.inr ⟨d, j, hj, ?_⟩
          rw [hget2]
          simpa using h2
      · exact Or.inr hfound

/-- Claim C9: confirmed.  A successful text query leaves the store (in
particular its metadata collection) unchanged, and every returned record
is a copy of a stored record with the distance attached as `score` on the
copy only. -/
theorem query_leaves_store_unchanged
    (embed : String → Except String (List Int)) (store : VectorStore)
    (q : String) (topK : Option Nat) (cfgTopK : Nat) (rs : List Meta)
    (st : VectorStore)
    (h : queryWithState embed store q topK cfgTopK = .ok (rs, st)) :
    st = store ∧
      ∀ r ∈ rs, ∃ d, ∃ j, ∃ hj : j < store.metadata.length,
        r = setScore (store.metadata.get ⟨j, hj⟩) d := by
  unfold queryWithState at h
  split at h
  · exact absurd h (by simp)
  · split at h
    · exact absurd h (by simp)
    · next rs0 hlook =>
      have hpair : (rs0, store) = (rs, st) := Except.ok.inj h
      rw [Prod.mk.injEq] at hpair
      obtain ⟨rfl, rfl⟩ := hpair
      refine ⟨rfl, ?_⟩
      intro r hr
      rcases lookupLoop_mem store.metadata _ [] rs0 hlook r hr with hacc | hfound
      · exact absurd hacc (List.not_mem_nil r)
      · exact hfound

/-- Witness for the claim C9 theorem at a concrete one-record store. -/
theorem query_leaves_store_unchanged_witness :
    store1 = store1 ∧
      ∀ r ∈ [setScore (sampleMeta 0) 0],
        ∃ d, ∃ j, ∃ hj : j < store1.metadata.length,
          r = setScore (store1.metadata.get ⟨j, hj⟩) d :=
  query_leaves_store_unchanged (embedConst [0]) store1 "q" (some 1) 5
    [setScore (sampleMeta 0) 0] store1 rfl


/-- Auxiliary: when no line of the input matches the heading regex, the
sectioning loop simply accumulates every line onto the current buffer and
flushes one section at the end. -/
theorem estLoop_no_heading (isH : String → Bool) (excl : List String) :
    ∀ (ls : List String) (cur : String) (buf : List String),
      (∀ l ∈ ls, isH (pyStrip l) = false) →
      estLoop isH excl ls cur buf =
        if buf ++ ls ≠ [] ∧ (excl = [] ∨ cur ∉ excl)
        then [(cur, joinN (buf ++ ls))] else [] := by
  intro ls
  induction ls with
  | nil =>
    intro cur buf _
    simp [estLoop]
  | cons l rest ih =>
    intro cur buf h
    have hl : isH (pyStrip l) = false := h l (List.mem_cons_self l rest)
    have hrest : ∀ l2 ∈ rest, isH (pyStrip l2) = false :=
      fun l2 hl2 => h l2 (List.mem_cons_of_mem l hl2)
    have hassoc : (buf ++ [l]) ++ rest = buf ++ l :: rest := by
      rw [List.append_assoc, List.singleton_append]
    unfold estLoop
    rw [hl]
    simp only [Bool.false_eq_true, if_false]
    rw [ih cur (buf ++ [l]) hrest, hassoc]

/-- Claim C4 counterexample: for a document with no heading-matching line,
the non-EPUB pipeline yields one section titled `"Introduction"`, not the
document's title (`"mybook"` here). -/
theorem no_heading_counterexample :
    sectionsOrSynthetic "hello\nworld" "mybook" defaultHeadingMatch [] =
      [("Introduction", "hello\nworld")] ∧ "Introduction" ≠ "mybook" := by
  constructor
  · rfl
  · decide

/-- Claim C4, amended: for a non-EPUB document whose text contains at least
one line and no line matching the heading regex, extraction yields exactly
one section whose body is the full text (its lines rejoined) — but titled
with the implicit heading `"Introduction"` (when not excluded), not with
the document's title; the synthetic document-titled section only arises
when extraction returns no sections at all. -/
theorem no_heading_single_introduction_section (text bt : String)
    (isH : String → Bool) (excl : List String)
    (hno : ∀ l ∈ pySplitLines text, isH (pyStrip l) = false)
    (hne : pySplitLines text ≠ [])
    (hexcl : excl = [] ∨ "Introduction" ∉ excl) :
    sectionsOrSynthetic text bt isH excl =
      [("Introduction", joinN (pySplitLines text))] := by
  unfold sectionsOrSynthetic extract_sections_txt
  rw [estLoop_no_heading isH excl (pySplitLines text) "Introduction" [] hno]
  simp [hne, hexcl]

/-- Witness for the amended claim C4 theorem at a concrete two-line
document with no heading lines. -/
theorem no_heading_single_introduction_witness :
    sectionsOrSynthetic "hi\nyo" "somebook" defaultHeadingMatch [] =
      [("Introduction", joinN (pySplitLines "hi\nyo"))] :=
  no_heading_single_introduction_section "hi\nyo" "somebook" defaultHeadingMatch []
    (by decide) (by decide) (Or.inl rfl)

/-- Equation lemma: `keepFirst` on the empty list. -/
theorem keepFirst_nil : keepFirst [] = [] := by
  rw [keepFirst]

/-- Equation lemma: `keepFirst` keeps the head and drops its later
duplicates before recursing. -/
theorem keepFirst_cons (c : String) (cs : List String) :
    keepFirst (c :: cs) = c :: keepFirst (cs.filter (fun x => decide (x ≠ c))) := by
  rw [keepFirst]

/-- Auxiliary: the seen-set loop of `deduplicate_chunks` keeps exactly the
first occurrence of every chunk not yet seen. -/
theorem dedupLoop_eq_keepFirst :
    ∀ (cs seen : List String),
      dedupLoop cs seen = keepFirst (cs.filter (fun c => decide (c ∉ seen))) := by
  intro cs
  induction cs with
  | nil =>
    intro seen
    simp [dedupLoop, keepFirst_nil]
  | cons c rest ih =>
    intro seen
    by_cases hc : c ∈ seen
    · rw [show dedupLoop (c :: rest) seen = dedupLoop rest seen from by
        simp [dedupLoop, hc]]
      rw [ih seen]
      congr 1
      simp [List.filter_cons, hc]
    · rw [show dedupLoop (c :: rest) seen = c :: dedupLoop rest (c :: seen) from by
        simp [dedupLoop, hc]]
      rw [ih (c :: seen)]
      have hfc : (c :: rest).filter (fun x => decide (x ∉ seen)) =
          c :: rest.filter (fun x => decide (x ∉ seen)) := by
        simp [List.filter_cons, hc]
      rw [hfc, keepFirst_cons]
      congr 1
      rw [List.filter_filter]
      apply congrArg keepFirst
      apply List.filter_congr
      intro a _
      have hiff : (a ∉ c :: seen) ↔ (a ≠ c ∧ a ∉ seen) := by
        simp [not_or]
      rw [decide_eq_decide.mpr hiff]
      exact Bool.decide_and _ _

/-- Claim C5 counterexample: two chunks that are equal after whitespace
normalization but differ in raw whitespace are *both* kept by
`deduplicate_chunks` (cleaning runs only afterwards), so
normalization-equal chunks are not treated as duplicates. -/
theorem dedup_not_whitespace_normalized :
    deduplicate_chunks ["a  b", "a b"] = ["a  b", "a b"] ∧
    clean_chunk "a  b" = clean_chunk "a b" ∧ ("a  b" : String) ≠ "a b" := by
  refine ⟨rfl, rfl, ?_⟩
  decide

/-- Claim C5, amended: within one run, `deduplicate_chunks` treats two
chunks as duplicates exactly when their raw contents are equal (whitespace
normalization happens only later, in `clean_chunk`), and keeps only the
first occurrence of each distinct raw chunk. -/
theorem deduplicate_chunks_keeps_first_exact (cs : List String) :
    deduplicate_chunks cs = keepFirst cs := by
  unfold deduplicate_chunks
  rw [dedupLoop_eq_keepFirst cs []]
  congr 1
  simp


/-- Claim C10: confirmed.  Every metadata record emitted by the
book-ingestion section loop carries a `section_index` pointing at an
original section that passed the minimum-size filter (body nonempty and at
least `min_section_words` words) and keeps that section's title; hence a
section failing the filter contributes no chunk and no record, and the
surviving sections keep their original document-order `section_index`
values. -/
theorem sections_filtered_keep_original_index
    (chunker : String → List String) (msw : Nat) (bookTitle fn : String)
    (sections : List (String × String)) :
    ∀ m ∈ processSections chunker msw bookTitle fn sections,
      ∃ i, m.section_index = some i ∧
        ∃ hi : i < sections.length,
          m.sectionTitle = some (sections.get ⟨i, hi⟩).1 ∧
          ¬ ((sections.get ⟨i, hi⟩).2 = "" ∨
              (pySplit (sections.get ⟨i, hi⟩).2).length < msw) := by
  intro m hm
  unfold processSections at hm
  rw [List.mem_flatMap] at hm
  obtain ⟨p, hp, hmp⟩ := hm
  have hget : sections.get? p.1 = some p.2 := List.mem_enum_iff_get?.mp hp
  rw [List.get?_eq_some] at hget
  obtain ⟨hlen, hgetv⟩ := hget
  by_cases hskip : p.2.2 = "" ∨ (pySplit p.2.2).length < msw
  · rw [if_pos hskip] at hmp
    exact absurd hmp (List.not_mem_nil m)
  · rw [if_neg hskip] at hmp
    rw [List.mem_map] at hmp
    obtain ⟨q, _, hq⟩ := hmp
    refine ⟨p.1, ?_, hlen, ?_, ?_⟩
    · rw [← hq]
    · rw [← hq, hgetv]
    · rw [hgetv]
      exact hskip

/-- Witness for the claim C10 theorem: with a two-section book whose first
section is below the minimum word count, the single emitted record points
at the second section with its original index 1. -/
theorem sections_filtered_witness :
    ∃ i,
      (Meta.mk "book" (some "bk") "f.txt" (some "B") (some 1) 0 (some "y z")
        none none none none).section_index = some i ∧
      ∃ hi : i < ([("A", "x"), ("B", "y z")] : List (String × String)).length,
        (Meta.mk "book" (some "bk") "f.txt" (some "B") (some 1) 0 (some "y z")
          none none none none).sectionTitle =
          some (([("A", "x"), ("B", "y z")] : List (String × String)).get ⟨i, hi⟩).1 ∧
        ¬ ((([("A", "x"), ("B", "y z")] : List (String × String)).get ⟨i, hi⟩).2 = "" ∨
            (pySplit (([("A", "x"), ("B", "y z")] : List (String × String)).get ⟨i, hi⟩).2).length < 2) :=
  sections_filtered_keep_original_index (fun b => [b]) 2 "bk" "f.txt"
    [("A", "x"), ("B", "y z")]
    (Meta.mk "book" (some "bk") "f.txt" (some "B") (some 1) 0 (some "y z")
      none none none none)
    (by decide)


/-- Auxiliary: with a positive stride (`overlap < chunk_size`), the fueled
word-method loop of `chunk_text` terminates as soon as the fuel exceeds the
remaining word count, producing exactly the `windowsFrom` window
sequence. -/
theorem chunkLoopW_eq_windowsFrom (words : List String) (cs ov mcw : Nat)
    (hov : ov < cs) :
    ∀ (fuel i : Nat), words.length - i < fuel →
      chunkLoopW words cs ov mcw fuel i =
        some (windowsFrom words cs (cs - ov) mcw i) := by
  intro fuel
  induction fuel with
  | zero =>
    intro i hi
    exact absurd hi (Nat.not_lt_zero _)
  | succ n ih =>
    intro i hi
    by_cases hlt : i < words.length
    · have hrec := ih (i + (cs - ov)) (by omega)
      rw [windowsFrom, dif_pos ⟨by omega, hlt⟩]
      unfold chunkLoopW
      rw [if_pos hlt, hrec, Option.map_some']
      by_cases hk : mcw ≤ ((words.drop i).take cs).length
      · rw [if_pos hk, if_pos hk, List.singleton_append]
      · rw [if_neg hk, if_neg hk, List.nil_append]
    · rw [windowsFrom, dif_neg (by tauto)]
      unfold chunkLoopW
      rw [if_neg hlt]

/-- Auxiliary: when every window is large enough to be kept, the `n`-th
entry of the window sequence started at `i` is the window at start index
`i + n * stride`, existing exactly while that start is in range. -/
theorem windowsFrom_get (words : List String) (cs s mcw : Nat) (hs : 0 < s)
    (hmin : ∀ i, i < words.length → mcw ≤ ((words.drop i).take cs).length) :
    ∀ (n i : Nat),
      (windowsFrom words cs s mcw i).get? n =
        if i + n * s < words.length
        then some ((words.drop (i + n * s)).take cs) else none := by
  intro n
  induction n with
  | zero =>
    intro i
    rw [windowsFrom]
    by_cases hlt : i < words.length
    · rw [dif_pos ⟨hs, hlt⟩, if_pos (hmin i hlt), if_pos (by omega)]
      simp
    · rw [dif_neg (by tauto), if_neg (by omega)]
      rfl
  | succ n ih =>
    intro i
    rw [windowsFrom]
    by_cases hlt : i < words.length
    · rw [dif_pos ⟨hs, hlt⟩, if_pos (hmin i hlt)]
      rw [List.singleton_append, List.get?_cons_succ]
      rw [ih (i + s)]
      have harith : i + s + n * s = i + (n + 1) * s := by ring
      rw [harith]
    · rw [dif_neg (by tauto), if_neg (by omega)]
      rfl

/-- Claim C6, amended: for `overlap < chunk_size`, the word-method chunker
emits the sliding windows at stride `chunk_size − overlap` that contain at
least `min_chunk_words` words (undersized windows are dropped).  When every
window in range meets the minimum — the situation the original claim
describes, without the `min_chunk_words` filter — every input word is
covered by some emitted chunk, and each pair of consecutive chunks shares
exactly `overlap` words (trailing words of one = leading words of the
next; the final truncated chunk excepted, where the shared segment may be
shorter). -/
theorem chunk_words_coverage_and_overlap (words : List String) (cs ov mcw : Nat)
    (hov : ov < cs)
    (hmin : ∀ i, i < words.length → mcw ≤ ((words.drop i).take cs).length) :
    ∃ ws, chunkWords words cs ov mcw = some ws ∧
      (∀ j, j < words.length →
        ∃ w, w ∈ ws ∧ ∃ i, w = (words.drop i).take cs ∧ i ≤ j ∧ j < i + cs) ∧
      (∀ n w w2, ws.get? n = some w → ws.get? (n + 1) = some w2 →
        w.drop (cs - ov) = w2.take ov ∧
        ((n + 1) * (cs - ov) + ov ≤ words.length → (w2.take ov).length = ov)) := by
  have hs : 0 < cs - ov := by omega
  refine ⟨windowsFrom words cs (cs - ov) mcw 0, ?_, ?_, ?_⟩
  · unfold chunkWords
    exact chunkLoopW_eq_windowsFrom words cs ov mcw hov (words.length + 1) 0 (by omega)
  · intro j hj
    have hmod : j % (cs - ov) < cs - ov := Nat.mod_lt j hs
    have hdm := Nat.div_add_mod j (cs - ov)
    rw [Nat.mul_comm] at hdm
    have hle : j / (cs - ov) * (cs - ov) ≤ j := by omega
    have hget := windowsFrom_get words cs (cs - ov) mcw hs hmin (j / (cs - ov)) 0
    rw [Nat.zero_add, if_pos (by omega)] at hget
    refine ⟨(words.drop (j / (cs - ov) * (cs - ov))).take cs,
      List.get?_mem hget, j / (cs - ov) * (cs - ov), rfl, hle, by omega⟩
  · intro n w w2 hw hw2
    have Hn := windowsFrom_get words cs (cs - ov) mcw hs hmin n 0
    have Hn1 := windowsFrom_get words cs (cs - ov) mcw hs hmin (n + 1) 0
    rw [hw] at Hn
    rw [hw2] at Hn1
    by_cases h1 : 0 + n * (cs - ov) < words.length
    swap
    · rw [if_neg h1] at Hn
      exact absurd Hn (by simp)
    by_cases h2 : 0 + (n + 1) * (cs - ov) < words.length
    swap
    · rw [if_neg h2] at Hn1
      exact absurd Hn1 (by simp)
    rw [if_pos h1] at Hn
    rw [if_pos h2] at Hn1
    obtain rfl := Option.some.inj Hn
    obtain rfl := Option.some.inj Hn1
    constructor
    · rw [List.drop_take, List.drop_drop, List.take_take]
      have e1 : cs - (cs - ov) = ov := by omega
      have e2 : 0 + n * (cs - ov) + (cs - ov) = 0 + (n + 1) * (cs - ov) := by ring
      have e3 : ov ⊓ cs = ov := inf_eq_left.mpr (by omega)
      rw [e1, e2, e3]
    · intro hlen
      rw [List.take_take]
      have e3 : ov ⊓ cs = ov := inf_eq_left.mpr (by omega)
      rw [e3, List.length_take, List.length_drop]
      simp only [Nat.zero_add]
      generalize (n + 1) * (cs - ov) = u at hlen ⊢
      omega

/-- Claim C6 counterexample: with one word, `chunk_size = 2`,
`overlap = 1` (so `overlap < chunk_size`) and the default
`min_chunk_words = 50`, the single window is dropped for being undersized,
the chunker returns no chunks at all, and the input word is covered by no
emitted chunk — total word coverage does not equal the input word count. -/
theorem chunk_words_coverage_counterexample :
    chunkWords ["a"] 2 1 50 = some [] ∧
    ¬ ∃ ws, chunkWords ["a"] 2 1 50 = some ws ∧
        ∀ j, j < (["a"] : List String).length →
          ∃ w, w ∈ ws ∧
            ∃ i, w = ((["a"] : List String).drop i).take 2 ∧ i ≤ j ∧ j < i + 2 := by
  refine ⟨rfl, ?_⟩
  rintro ⟨ws, hws, hcov⟩
  have h0 : some ([] : List (List String)) = some ws :=
    Eq.trans (Eq.symm (show chunkWords ["a"] 2 1 50 = some [] from rfl)) hws
  obtain rfl := Option.some.inj h0
  obtain ⟨w, hw, -⟩ := hcov 0 (by decide)
  exact absurd hw (List.not_mem_nil w)


/-- Witness for the amended claim C6 theorem: five words,
`chunk_size = 3`, `overlap = 1`, `min_chunk_words = 1` (every window
kept). -/
theorem chunk_words_coverage_witness :
    (1 : Nat) < 3 ∧
    (∀ i, i < (["a", "b", "c", "d", "e"] : List String).length →
      1 ≤ (((["a", "b", "c", "d", "e"] : List String).drop i).take 3).length) ∧
    (∃ ws, chunkWords ["a", "b", "c", "d", "e"] 3 1 1 = some ws ∧
      (∀ j, j < (["a", "b", "c", "d", "e"] : List String).length →
        ∃ w, w ∈ ws ∧
          ∃ i, w = ((["a", "b", "c", "d", "e"] : List String).drop i).take 3 ∧
            i ≤ j ∧ j < i + 3) ∧
      (∀ n w w2, ws.get? n = some w → ws.get? (n + 1) = some w2 →
        w.drop (3 - 1) = w2.take 1 ∧
        ((n + 1) * (3 - 1) + 1 ≤ (["a", "b", "c", "d", "e"] : List String).length →
          (w2.take 1).length = 1))) :=
  ⟨by decide, by decide,
    chunk_words_coverage_and_overlap ["a", "b", "c", "d", "e"] 3 1 1
      (by decide) (by decide)⟩

end Voxarch
